import Mathlib

/-!
Shallow embedding of scripts/build_isic_sets.py.

The script harvests dermatoscopic images from the ISIC archive API into
per-label buckets, with checkpoint/resume, and deterministically builds
balanced paired quiz sets from pairs of buckets.  The embedding below
translates the pure core of each function; HTTP fetching and the file
system are modelled as explicit inputs (pages of records, file contents).
Python strings are modelled as Lean String / List Char; Python dicts keyed
by label strings are modelled as total functions from String (defaultdict
semantics: missing key yields the default).
-/

/-! ### Generic string helpers (Python `str.lower` and `in` on ASCII data) -/

def lowerL (s : List Char) : List Char := s.map Char.toLower

/-- Python `hay.startswith(needle)` on character lists. -/
def swL : List Char → List Char → Bool
  | _, [] => true
  | [], _ :: _ => false
  | h :: hs, n :: ns => h == n && swL hs ns

/-- Python `needle in hay` (substring containment) on character lists. -/
def containsSub : List Char → List Char → Bool
  | [], needle => swL [] needle
  | h :: hs, needle => swL (h :: hs) needle || containsSub hs needle

/-! ### Data model: cases, buckets, counts -/

/-- A quiz case as built by the script (a JSON dict of four strings). -/
structure Case where
  id : String
  imageUrl : String
  diagnosis : String
  source : String
deriving DecidableEq

/-- `TARGET_PER_LABEL = 15` from the script. -/
def TARGET_PER_LABEL : Nat := 15

/-- `is_dermoscopic(meta)`: the acquisition `image_type` field is modelled as
`Option String` (`none` = key absent; the script defaults it to `''`).
Source: `t = str(acq.get('image_type', '')).lower(); return (not t) or ('dermo' in t)`. -/
def is_dermoscopic (image_type : Option String) : Bool :=
  let t := lowerL (image_type.getD ("")).toList
  t.isEmpty || containsSub t (("dermo").toList)

/-- The fields of an image record used by `lesion_to_case`:
`files.full.url` (defaulted to `''` when missing) , `isic_id`
(defaulted to `''`), and `metadata.acquisition.image_type`. -/
structure Img where
  isic_id : String
  fileUrl : String
  image_type : Option String
deriving DecidableEq

/-- `lesion_to_case(img, label)`: skip when the URL or the id is empty or the
image is not dermoscopic; otherwise build the case dict. -/
def lesion_to_case (img : Img) (label : String) : Option Case :=
  if img.fileUrl = "" ∨ img.isic_id = "" then none
  else if is_dermoscopic img.image_type then
    some { id := img.isic_id, imageUrl := img.fileUrl, diagnosis := label,
           source := ("APIv2-lesions") }
  else none

/-- `add_case(buckets, counts, label, case)`: drop `None`, drop when the
label's count has reached the target, drop duplicated ids, otherwise append
and bump the count.  `buckets`/`counts` are the two dicts, modelled as total
functions (defaultdict semantics). -/
def add_case (buckets : String → List Case) (counts : String → Nat)
    (label : String) (case? : Option Case) :
    (String → List Case) × (String → Nat) :=
  match case? with
  | none => (buckets, counts)
  | some c =>
    if TARGET_PER_LABEL ≤ counts label then (buckets, counts)
    else if (buckets label).any (fun x => x.id == c.id) then (buckets, counts)
    else (Function.update buckets label (buckets label ++ [c]),
          Function.update counts label (counts label + 1))

/-! ### harvest_from_lesions: label mapping and one page of the loop -/

/-- The fields of a lesion record used by the script. -/
structure Lesion where
  outcome_diagnosis : String
  outcome_diagnosis_1 : String
  index_image_id : Option String
  images : List Img
deriving DecidableEq

/-- `map_lesion_label(lesion)`: ordered substring matching over the joined,
lowercased free-text diagnosis fields. -/
def map_lesion_label (lesion : Lesion) : Option String :=
  let txt := lowerL (lesion.outcome_diagnosis ++ " | " ++ lesion.outcome_diagnosis_1).toList
  if containsSub txt (("actinic keratosis").toList) then some ("actinic_keratosis")
  else if containsSub txt (("basal cell carcinoma").toList) then some ("bcc")
  else if containsSub txt (("melanoma").toList) then some ("melanoma")
  else if containsSub txt (("nevus").toList) || containsSub txt (("naevus").toList) then
    some ("nevus")
  else if containsSub txt (("bowen").toList) ||
      containsSub txt (("squamous cell carcinoma in situ").toList) then some ("bowen")
  else none

/-- The four labels served by the lesions stream. -/
def lesionStreamLabels : List String :=
  ["melanoma", "nevus", "bcc", "actinic_keratosis"]

/-- The representative image pick inside `harvest_from_lesions`: the first
image whose `isic_id` equals `str(lesion.get('index_image_id') or '')`,
falling back to the first image of the lesion when there is no match. -/
def pickIndexImage (lesion : Lesion) : Option Img :=
  match lesion.images.find? (fun im => im.isic_id == lesion.index_image_id.getD ("")) with
  | some im => some im
  | none => lesion.images.head?

/-- Body of the `for lesion in res` loop of `harvest_from_lesions`: map the
label, pick the index image (falling back to the first image), convert and
add.  Returns the updated `(buckets, counts)`. -/
def process_lesion (bc : (String → List Case) × (String → Nat)) (lesion : Lesion) :
    (String → List Case) × (String → Nat) :=
  match map_lesion_label lesion with
  | some label =>
    if label ∈ lesionStreamLabels then
      match pickIndexImage lesion with
      | some im => add_case bc.1 bc.2 label (lesion_to_case im label)
      | none => bc
    else bc
  | none => bc

/-- Result of processing one fetched page inside `harvest_from_lesions`. -/
structure LesionsStepResult where
  scanned : Nat
  buckets : String → List Case
  counts : String → Nat
  nextUrl : Option String
  savedCheckpoint : Bool

/-- One iteration of the `while url` loop of `harvest_from_lesions`, given the
fetched page `results` (nonempty, else the loop breaks) and its `next` URL:
every lesion bumps `scanned` and is processed; the checkpoint is saved only
when `scanned % 1000 < len(res)` (roughly every 1000 scanned lesions). -/
def lesionsPageStep (scanned : Nat) (buckets : String → List Case)
    (counts : String → Nat) (results : List Lesion) (nextUrl : Option String) :
    LesionsStepResult :=
  let scanned2 := scanned + results.length
  let bc := results.foldl process_lesion (buckets, counts)
  { scanned := scanned2, buckets := bc.1, counts := bc.2, nextUrl := nextUrl,
    savedCheckpoint := decide (scanned2 % 1000 < results.length) }

/-! ### harvest_by_search: one page of the loop -/

/-- The fields of a search-result record used by `harvest_by_search`. -/
structure SearchRec where
  isic_id : String
  fileUrl : String
  image_type : Option String
deriving DecidableEq

/-- The case dict literally built for a search record (no emptiness check on
`isic_id` or the URL in this path). -/
def search_rec_case (label : String) (r : SearchRec) : Case :=
  { id := r.isic_id, imageUrl := r.fileUrl, diagnosis := label,
    source := ("APIv2-search") }

/-- The `for r in res` loop of `harvest_by_search`: non-dermoscopic records
are skipped (`continue`); otherwise the record's case is added and the loop
breaks as soon as the label's count reaches the target. -/
def searchProcessPage (label : String) (buckets : String → List Case)
    (counts : String → Nat) : List SearchRec → (String → List Case) × (String → Nat)
  | [] => (buckets, counts)
  | r :: rs =>
    if is_dermoscopic r.image_type then
      let bc := add_case buckets counts label (some (search_rec_case label r))
      if TARGET_PER_LABEL ≤ bc.2 label then bc
      else searchProcessPage label bc.1 bc.2 rs
    else searchProcessPage label buckets counts rs

/-- Result of processing one fetched page inside `harvest_by_search`. -/
structure SearchStepResult where
  buckets : String → List Case
  counts : String → Nat
  nextUrl : Option String
  savedCheckpoint : Bool

/-- One iteration of the `while counts[label] < TARGET` loop of
`harvest_by_search`, given the fetched page and its `next` URL: the page is
processed and then the checkpoint is saved unconditionally. -/
def searchPageStep (label : String) (buckets : String → List Case)
    (counts : String → Nat) (results : List SearchRec) (nextUrl : Option String) :
    SearchStepResult :=
  let bc := searchProcessPage label buckets counts results
  { buckets := bc.1, counts := bc.2, nextUrl := nextUrl, savedCheckpoint := true }

/-! ### build_sets -/

/-- Python string comparison: lexicographic on code points. -/
def leL : List Char → List Char → Bool
  | [], _ => true
  | _ :: _, [] => false
  | a :: as, b :: bs =>
    if a.toNat < b.toNat then true
    else if b.toNat < a.toNat then false
    else leL as bs

/-- Ordering of cases by `id`, the sort key of `build_sets`. -/
def caseLe (x y : Case) : Prop := leL x.id.toList y.id.toList = true

instance : DecidableRel caseLe := fun x y => by unfold caseLe; infer_instance

/-- Python `sorted(l, key=lambda x: x['id'])` is the stable ascending sort by
id; `List.insertionSort` is a stable ascending sort, hence pointwise equal. -/
def sortById (l : List Case) : List Case := l.insertionSort caseLe

/-- The `for x, y in zip(aa, bb): merged.append(x); merged.append(y)` loop. -/
def interleave : List Case → List Case → List Case
  | x :: xs, y :: ys => x :: y :: interleave xs ys
  | _, _ => []

/-- One iteration of the `for i in range(nsets)` loop of `build_sets`: slice
the two chunks (`l[a:b]` is `take` of `drop`) and keep the interleaved set
only when both chunks are full. -/
def chunkSet (aaAll bbAll : List Case) (perClass i : Nat) : Option (List Case) :=
  let aa := (aaAll.drop (i * perClass)).take perClass
  let bb := (bbAll.drop (i * perClass)).take perClass
  if aa.length = perClass ∧ bb.length = perClass then some (interleave aa bb) else none

/-- The body of the `for per_class in (preferred, fallback)` loop of
`build_sets`: the `out` list built for one per-class size. -/
def attemptSets (aSorted bSorted : List Case) (nsets perClass : Nat) :
    List (List Case) :=
  let need := nsets * perClass
  let aaAll := aSorted.take need
  let bbAll := bSorted.take need
  (List.range nsets).filterMap (chunkSet aaAll bbAll perClass)

/-- `build_sets(a, b, nsets, preferred_per_class, fallback_per_class)`: sort
both buckets by id, attempt the preferred size, return its `out` when it is
complete, otherwise return the fallback attempt's `out` unconditionally
(the `return out` after the loop). -/
def build_sets (a b : List Case) (nsets preferredPerClass fallbackPerClass : Nat) :
    List (List Case) :=
  let aSorted := sortById a
  let bSorted := sortById b
  let out := attemptSets aSorted bSorted nsets preferredPerClass
  if out.length = nsets then out
  else attemptSets aSorted bSorted nsets fallbackPerClass

/-! ### Lesion-level dedup (stricter harvesting variant) -/

/-- A case as accepted by the stricter harvesting variant, which also carries
the derived lesion identifier (empty when unknown). -/
structure LCase where
  id : String
  lesionId : String
deriving DecidableEq

/-- Modelled from the spec: the repository's stricter filter variant (its
script is not under src/; only this search-driven variant is) additionally
performs lesion-level dedup when adding a case to a bucket: "a case whose
derived lesion identifier has already contributed an accepted case to the
bucket is rejected, regardless of modality/histopathology status", while
cases without a lesion identifier are only deduplicated by id.  The cap and
id-dedup behaviour mirror `add_case`. -/
def add_case_lesion_dedup (bucket : List LCase) (count : Nat) (c : LCase) :
    List LCase × Nat :=
  if TARGET_PER_LABEL ≤ count then (bucket, count)
  else if bucket.any (fun x => x.id == c.id) then (bucket, count)
  else if c.lesionId = "" then (bucket ++ [c], count + 1)
  else if bucket.any (fun x => x.lesionId == c.lesionId) then (bucket, count)
  else (bucket ++ [c], count + 1)

/-! ### Checkpoint store: JSON serialization (save_ck / load_ck)

The checkpoint file holds one JSON document: `save_ck` writes
`json.dumps(state, ensure_ascii=False)` (default separators, no indent) and
`load_ck` reads it back with `json.loads`, returning `None` when the file is
missing or malformed.  The JSON values that occur in a checkpoint state are
null, non-negative integers, strings, arrays and objects; `renderJ` below is
`json.dumps` on that fragment and the fuelled parser is `json.loads`
restricted to the documents `renderJ` produces (escape sequences beyond the
single-character ones, floats, signed numbers and leading-zero forms never
occur in them).  The file system is modelled by passing the file content
explicitly (`none` = file absent). -/


/-- JSON values as stored in the checkpoint file. -/
inductive J where
  | null : J
  | num : Nat → J
  | str : List Char → J
  | arr : List J → J
  | obj : List (List Char × J) → J

def lcurl : Char := Char.ofNat 123
def rcurl : Char := Char.ofNat 125

def digitChar (d : Nat) : Char := Char.ofNat (48 + d)

def renderNatAux : Nat → Nat → List Char
  | 0, _ => []
  | fuel + 1, n => if n = 0 then [] else renderNatAux fuel (n / 10) ++ [digitChar (n % 10)]

def renderNat (n : Nat) : List Char :=
  if n = 0 then [('0')] else renderNatAux (n + 1) n

def renderJ : J → List Char
  | J.null => ['n', 'u', 'l', 'l']
  | J.num n => renderNat n
  | J.str s => '"' :: (s ++ ['"'])
  | J.arr [] => ['[', ']']
  | J.arr (v :: vs) => '[' :: (renderJ v ++ (rTail vs ++ [(']')]))
  | J.obj [] => [lcurl, rcurl]
  | J.obj ((k, v) :: kvs) =>
    lcurl :: ('"' :: (k ++ ('"' :: ':' :: ' ' :: (renderJ v ++ (rMTail kvs ++ [rcurl])))))
where
  rTail : List J → List Char
    | [] => []
    | v :: vs => ',' :: ' ' :: (renderJ v ++ rTail vs)
  rMTail : List (List Char × J) → List Char
    | [] => []
    | (k, v) :: kvs =>
      ',' :: ' ' :: ('"' :: (k ++ ('"' :: ':' :: ' ' :: (renderJ v ++ rMTail kvs))))

def wfStr (s : List Char) : Bool :=
  s.all (fun c => decide (32 ≤ c.toNat ∧ ¬ c = '"' ∧ ¬ c = '\\'))

def wfJ : J → Bool
  | J.null => true
  | J.num _ => true
  | J.str s => wfStr s
  | J.arr vs => wfL vs
  | J.obj kvs => wfM kvs
where
  wfL : List J → Bool
    | [] => true
    | v :: vs => wfJ v && wfL vs
  wfM : List (List Char × J) → Bool
    | [] => true
    | (k, v) :: kvs => wfStr k && wfJ v && wfM kvs

/-! Parser -/

def isWs (c : Char) : Bool :=
  decide (c.toNat = 32 ∨ c.toNat = 9 ∨ c.toNat = 10 ∨ c.toNat = 13)

def skipWs (s : List Char) : List Char := s.dropWhile isWs

def isDigitCh (c : Char) : Bool := decide (48 ≤ c.toNat ∧ c.toNat ≤ 57)

def unescape (e : Char) : Option Char :=
  if e = '"' then some '"'
  else if e = '\\' then some '\\'
  else if e = '/' then some '/'
  else if e = 'n' then some (Char.ofNat 10)
  else if e = 't' then some (Char.ofNat 9)
  else if e = 'r' then some (Char.ofNat 13)
  else if e = 'b' then some (Char.ofNat 8)
  else if e = 'f' then some (Char.ofNat 12)
  else none

def parseStrBody : List Char → Option (List Char × List Char)
  | [] => none
  | c :: rest =>
    if c = '"' then some ([], rest)
    else if c = '\\' then
      match rest with
      | [] => none
      | e :: rest2 =>
        match unescape e, parseStrBody rest2 with
        | some u, some (s, r) => some (u :: s, r)
        | _, _ => none
    else
      match parseStrBody rest with
      | some (s, r) => some (c :: s, r)
      | none => none

def parseNatTok (s : List Char) : Option (Nat × List Char) :=
  let ds := s.takeWhile isDigitCh
  if ds.isEmpty then none
  else some (ds.foldl (fun a c => 10 * a + (c.toNat - 48)) 0, s.dropWhile isDigitCh)

/-- The three parsers (value, array tail, object tail) at one fuel level,
given the parsers of the previous level. -/
def PTriple : Type :=
  (List Char → Option (J × List Char)) ×
  (List Char → Option (List J × List Char)) ×
  (List Char → Option (List (List Char × J) × List Char))

def pvStep (p : PTriple) (s : List Char) : Option (J × List Char) :=
  match skipWs s with
  | [] => none
  | c :: r =>
    if c = 'n' then
      match r with
      | u :: l1 :: l2 :: r2 => if u = 'u' ∧ l1 = 'l' ∧ l2 = 'l' then some (J.null, r2) else none
      | _ => none
    else if c = '"' then
      match parseStrBody r with
      | some (s2, r2) => some (J.str s2, r2)
      | none => none
    else if c = '[' then
      match skipWs r with
      | [] => none
      | c2 :: r2 =>
        if c2 = ']' then some (J.arr [], r2)
        else
          match p.1 r with
          | some (v, r3) =>
            match p.2.1 r3 with
            | some (vs, r4) => some (J.arr (v :: vs), r4)
            | none => none
          | none => none
    else if c = lcurl then
      match skipWs r with
      | [] => none
      | c2 :: r2 =>
        if c2 = rcurl then some (J.obj [], r2)
        else if c2 = '"' then
          match parseStrBody r2 with
          | some (k, r3) =>
            match skipWs r3 with
            | ':' :: r4 =>
              match p.1 r4 with
              | some (v, r5) =>
                match p.2.2 r5 with
                | some (kvs, r6) => some (J.obj ((k, v) :: kvs), r6)
                | none => none
              | none => none
            | _ => none
          | none => none
        else none
    else if isDigitCh c then
      match parseNatTok (c :: r) with
      | some (n, r2) => some (J.num n, r2)
      | none => none
    else none

def paStep (p : PTriple) (s : List Char) : Option (List J × List Char) :=
  match skipWs s with
  | [] => none
  | c :: r =>
    if c = ']' then some ([], r)
    else if c = ',' then
      match p.1 r with
      | some (v, r2) =>
        match p.2.1 r2 with
        | some (vs, r3) => some (v :: vs, r3)
        | none => none
      | none => none
    else none

def poStep (p : PTriple) (s : List Char) : Option (List (List Char × J) × List Char) :=
  match skipWs s with
  | [] => none
  | c :: r =>
    if c = rcurl then some ([], r)
    else if c = ',' then
      match skipWs r with
      | '"' :: r2 =>
        match parseStrBody r2 with
        | some (k, r3) =>
          match skipWs r3 with
          | ':' :: r4 =>
            match p.1 r4 with
            | some (v, r5) =>
              match p.2.2 r5 with
              | some (kvs, r6) => some ((k, v) :: kvs, r6)
              | none => none
            | none => none
          | _ => none
        | none => none
      | _ => none
    else none

def parsers : Nat → PTriple
  | 0 => (fun _ => none, fun _ => none, fun _ => none)
  | fuel + 1 => (pvStep (parsers fuel), paStep (parsers fuel), poStep (parsers fuel))

/-- `json.loads`, modelled for the fragment produced by `renderJ`: parse one
value with enough fuel and require only trailing whitespace. -/
def parseJson (s : List Char) : Option J :=
  match (parsers (s.length + 1)).1 s with
  | some (v, rest) => if skipWs rest = [] then some v else none
  | none => none

def save_ck (state : J) : List Char := renderJ state

def load_ck (file : Option (List Char)) : Option J :=
  match file with
  | none => none
  | some text => parseJson text

theorem skipWs_cons (c : Char) (t : List Char) :
    skipWs (c :: t) = if isWs c then skipWs t else c :: t := by
  simp [skipWs, List.dropWhile_cons]

theorem skipWs_prepend (ws : List Char) (h : ws.all isWs = true) (t : List Char) :
    skipWs (ws ++ t) = skipWs t := by
  induction ws with
  | nil => simp
  | cons c cs ih =>
    simp only [List.all_cons, Bool.and_eq_true] at h
    rw [List.cons_append, skipWs_cons, if_pos h.1, ih h.2]

theorem isWs_quot : isWs '"' = false := by decide
theorem isWs_lbrack : isWs '[' = false := by decide
theorem isWs_rbrack : isWs ']' = false := by decide
theorem isWs_lcurl : isWs lcurl = false := by decide
theorem isWs_rcurl : isWs rcurl = false := by decide
theorem isWs_comma : isWs ',' = false := by decide
theorem isWs_colon : isWs ':' = false := by decide
theorem isWs_n : isWs 'n' = false := by decide
theorem isWs_space : isWs ' ' = true := by decide

theorem isWs_digit (c : Char) (h : isDigitCh c = true) : isWs c = false := by
  simp only [isDigitCh, decide_eq_true_eq] at h
  simp only [isWs, decide_eq_false_iff_not]
  omega

theorem digit_ne (c : Char) (h : isDigitCh c = true) :
    ¬ c = 'n' ∧ ¬ c = '"' ∧ ¬ c = '[' ∧ ¬ c = lcurl ∧ ¬ c = ']' ∧ ¬ c = rcurl ∧ ¬ c = ',' := by
  simp only [isDigitCh, decide_eq_true_eq] at h
  refine ⟨?_, ?_, ?_, ?_, ?_, ?_, ?_⟩ <;> (intro he; subst he; revert h; decide)

theorem parseStrBody_render (s : List Char) (hs : wfStr s = true) (rest : List Char) :
    parseStrBody (s ++ '"' :: rest) = some (s, rest) := by
  induction s with
  | nil =>
    rw [List.nil_append, parseStrBody.eq_def]
    simp
  | cons c cs ih =>
    simp only [wfStr, List.all_cons, Bool.and_eq_true, decide_eq_true_eq] at hs
    obtain ⟨⟨h32, hq, hb⟩, htl⟩ := hs
    rw [List.cons_append, parseStrBody.eq_def]
    simp only [if_neg hq, if_neg hb]
    rw [ih (by simpa [wfStr] using htl)]

theorem renderNatAux_digits (fuel n : Nat) (c : Char) (hc : c ∈ renderNatAux fuel n) :
    isDigitCh c = true := by
  induction fuel generalizing n with
  | zero => simp [renderNatAux] at hc
  | succ fuel ih =>
    rw [renderNatAux] at hc
    by_cases h0 : n = 0
    · simp [h0] at hc
    · rw [if_neg h0] at hc
      rcases List.mem_append.1 hc with h | h
      · exact ih _ h
      · have : c = digitChar (n % 10) := by simpa using h
        subst this
        have : n % 10 < 10 := Nat.mod_lt _ (by norm_num)
        revert this
        have h10 := n % 10
        generalize n % 10 = d
        intro hd
        interval_cases d <;> decide

theorem renderNat_digits (n : Nat) (c : Char) (hc : c ∈ renderNat n) : isDigitCh c = true := by
  rw [renderNat] at hc
  by_cases h0 : n = 0
  · rw [if_pos h0] at hc
    simp at hc
    subst hc
    decide
  · rw [if_neg h0] at hc
    exact renderNatAux_digits _ _ _ hc

theorem renderNat_ne_nil (n : Nat) : renderNat n ≠ [] := by
  rw [renderNat]
  by_cases h0 : n = 0
  · simp [h0]
  · rw [if_neg h0, renderNatAux, if_neg h0]
    simp

theorem foldl_renderNatAux (fuel : Nat) :
    ∀ n, n ≠ 0 → n ≤ fuel → ∀ a : Nat,
      (renderNatAux fuel n).foldl (fun a c => 10 * a + (c.toNat - 48)) a =
        a * 10 ^ (renderNatAux fuel n).length + n := by
  induction fuel with
  | zero => intro n h0 hle; omega
  | succ fuel ih =>
    intro n h0 hle a
    rw [renderNatAux, if_neg h0]
    rw [List.foldl_append, List.length_append]
    simp only [List.foldl_cons, List.foldl_nil, List.length_cons, List.length_nil, Nat.zero_add]
    have hd10 : n % 10 < 10 := Nat.mod_lt _ (by norm_num)
    have hdchar : (digitChar (n % 10)).toNat = 48 + n % 10 := by
      generalize hg : n % 10 = d at hd10
      interval_cases d <;> decide
    by_cases hq : n / 10 = 0
    · rw [hq]
      have hz : renderNatAux fuel 0 = [] := by
        cases fuel <;> simp [renderNatAux]
      rw [hz, hdchar]
      simp only [List.foldl_nil, List.length_nil, Nat.zero_add, pow_one]
      omega
    · have hq10 : n / 10 ≤ fuel := by omega
      rw [ih (n / 10) hq hq10 a, hdchar, pow_succ]
      rw [show a * (10 ^ (renderNatAux fuel (n / 10)).length * 10) =
          a * 10 ^ (renderNatAux fuel (n / 10)).length * 10 from by ring]
      generalize a * 10 ^ (renderNatAux fuel (n / 10)).length = Q
      omega

theorem takeWhile_append_all (p : Char → Bool) (xs ys : List Char)
    (hxs : ∀ x ∈ xs, p x = true) (hys : ∀ y, ys.head? = some y → p y = false) :
    (xs ++ ys).takeWhile p = xs := by
  induction xs with
  | nil =>
    cases ys with
    | nil => simp
    | cons y ys' => simp [List.takeWhile_cons, hys y rfl]
  | cons x xs' ih =>
    rw [List.cons_append, List.takeWhile_cons, hxs x (by simp)]
    simp only [if_true]
    rw [ih (fun x hx => hxs x (by simp [hx]))]

theorem dropWhile_append_all (p : Char → Bool) (xs ys : List Char)
    (hxs : ∀ x ∈ xs, p x = true) (hys : ∀ y, ys.head? = some y → p y = false) :
    (xs ++ ys).dropWhile p = ys := by
  induction xs with
  | nil =>
    cases ys with
    | nil => simp
    | cons y ys' => simp [List.dropWhile_cons, hys y rfl]
  | cons x xs' ih =>
    rw [List.cons_append, List.dropWhile_cons, hxs x (by simp)]
    simp only [if_true]
    exact ih (fun x hx => hxs x (by simp [hx]))

theorem parseNatTok_render (n : Nat) (rest : List Char)
    (hrest : ∀ y, rest.head? = some y → isDigitCh y = false) :
    parseNatTok (renderNat n ++ rest) = some (n, rest) := by
  rw [parseNatTok]
  have hdigits : ∀ c ∈ renderNat n, isDigitCh c = true := renderNat_digits n
  rw [takeWhile_append_all _ _ _ hdigits hrest, dropWhile_append_all _ _ _ hdigits hrest]
  simp only [List.isEmpty_iff]
  rw [if_neg (renderNat_ne_nil n)]
  congr 1
  congr 1
  rw [renderNat]
  by_cases h0 : n = 0
  · simp [h0]
  · rw [if_neg h0, foldl_renderNatAux (n + 1) n h0 (by omega) 0]
    simp

theorem skipWs_not {c : Char} {t : List Char} (h : isWs c = false) :
    skipWs (c :: t) = c :: t := by
  rw [skipWs_cons, h]
  simp

theorem skipWs_ws {c : Char} {t : List Char} (h : isWs c = true) :
    skipWs (c :: t) = skipWs t := by
  rw [skipWs_cons, h]
  simp

theorem renderJ_head (v : J) :
    ∃ c t, renderJ v = c :: t ∧ isWs c = false ∧ ¬ c = ']' := by
  cases v with
  | null => exact ⟨'n', ['u', 'l', 'l'], rfl, by decide, by decide⟩
  | num n =>
    obtain ⟨c, t, h⟩ : ∃ c t, renderNat n = c :: t := by
      cases hrn : renderNat n with
      | nil => exact absurd hrn (renderNat_ne_nil n)
      | cons c t => exact ⟨c, t, rfl⟩
    have hd : isDigitCh c = true := renderNat_digits n c (by rw [h]; simp)
    exact ⟨c, t, h, isWs_digit c hd, (digit_ne c hd).2.2.2.2.1⟩
  | str s => exact ⟨'"', s ++ ['"'], rfl, by decide, by decide⟩
  | arr vs =>
    cases vs with
    | nil => exact ⟨'[', [']'], rfl, by decide, by decide⟩
    | cons v vs => exact ⟨'[', _, rfl, by decide, by decide⟩
  | obj kvs =>
    cases kvs with
    | nil => exact ⟨lcurl, [rcurl], rfl, by decide, by decide⟩
    | cons kv kvs =>
      obtain ⟨k, v⟩ := kv
      exact ⟨lcurl, _, rfl, by decide, by decide⟩

theorem rTail_head_not_digit (vs : List J) (x : Char) (hx : isDigitCh x = false)
    (rest : List Char) :
    ∀ y, (renderJ.rTail vs ++ x :: rest).head? = some y → isDigitCh y = false := by
  cases vs with
  | nil =>
    intro y hy
    simp only [renderJ.rTail, List.nil_append, List.head?_cons, Option.some_inj] at hy
    subst hy
    exact hx
  | cons v vs =>
    intro y hy
    simp only [renderJ.rTail, List.cons_append, List.head?_cons, Option.some_inj] at hy
    subst hy
    decide

theorem rMTail_head_not_digit (kvs : List (List Char × J)) (x : Char)
    (hx : isDigitCh x = false) (rest : List Char) :
    ∀ y, (renderJ.rMTail kvs ++ x :: rest).head? = some y → isDigitCh y = false := by
  cases kvs with
  | nil =>
    intro y hy
    simp only [renderJ.rMTail, List.nil_append, List.head?_cons, Option.some_inj] at hy
    subst hy
    exact hx
  | cons kv kvs =>
    obtain ⟨k, v⟩ := kv
    intro y hy
    simp only [renderJ.rMTail, List.cons_append, List.head?_cons, Option.some_inj] at hy
    subst hy
    decide

theorem ne_lb_n : ¬ ('[' : Char) = 'n' := by decide
theorem ne_lb_q : ¬ ('[' : Char) = '"' := by decide
theorem ne_lc_n : ¬ lcurl = 'n' := by decide
theorem ne_lc_q : ¬ lcurl = '"' := by decide
theorem ne_lc_lb : ¬ lcurl = '[' := by decide
theorem ne_q_n : ¬ ('"' : Char) = 'n' := by decide
theorem ne_q_rc : ¬ ('"' : Char) = rcurl := by decide
theorem ne_comma_rb : ¬ (',' : Char) = ']' := by decide
theorem ne_comma_rc : ¬ (',' : Char) = rcurl := by decide

theorem parsers_render (fuel : Nat) :
    (∀ ws v rest, ws.all isWs = true → wfJ v = true → (renderJ v).length < fuel →
      (∀ y, rest.head? = some y → isDigitCh y = false) →
      (parsers fuel).1 (ws ++ (renderJ v ++ rest)) = some (v, rest)) ∧
    (∀ vs rest, wfJ.wfL vs = true → (renderJ.rTail vs).length + 2 ≤ fuel →
      (parsers fuel).2.1 (renderJ.rTail vs ++ ']' :: rest) = some (vs, rest)) ∧
    (∀ kvs rest, wfJ.wfM kvs = true → (renderJ.rMTail kvs).length + 2 ≤ fuel →
      (parsers fuel).2.2 (renderJ.rMTail kvs ++ rcurl :: rest) = some (kvs, rest)) := by
  induction fuel with
  | zero =>
    refine ⟨?_, ?_, ?_⟩
    · intro ws v rest _ _ hlen _
      exact absurd hlen (by omega)
    · intro vs rest _ hlen
      exact absurd hlen (by omega)
    · intro kvs rest _ hlen
      exact absurd hlen (by omega)
  | succ fuel ih =>
    obtain ⟨ihv, iha, iho⟩ := ih
    refine ⟨?_, ?_, ?_⟩
    · intro ws v rest hws hwf hlen hrest
      show pvStep (parsers fuel) (ws ++ (renderJ v ++ rest)) = some (v, rest)
      rw [pvStep.eq_def, skipWs_prepend ws hws]
      cases v with
      | null => rfl
      | num n =>
        obtain ⟨c, t, hc⟩ : ∃ c t, renderNat n = c :: t := by
          cases hrn : renderNat n with
          | nil => exact absurd hrn (renderNat_ne_nil n)
          | cons c t => exact ⟨c, t, rfl⟩
        have hd : isDigitCh c = true := renderNat_digits n c (by rw [hc]; simp)
        have hne := digit_ne c hd
        rw [show renderJ (J.num n) = renderNat n from rfl, hc, List.cons_append,
          skipWs_not (isWs_digit c hd)]
        simp only [if_neg hne.1, if_neg hne.2.1, if_neg hne.2.2.1, if_neg hne.2.2.2.1,
          if_pos hd]
        rw [show (c :: (t ++ rest)) = (c :: t) ++ rest from rfl, ← hc,
          parseNatTok_render n rest hrest]
      | str s =>
        have hwfs : wfStr s = true := hwf
        rw [show renderJ (J.str s) ++ rest = '"' :: (s ++ ('"' :: rest)) from by
          simp [renderJ]]
        rw [skipWs_not isWs_quot]
        simp only [ne_q_n, if_false, eq_self_iff_true, if_true]
        rw [parseStrBody_render s hwfs rest]
      | arr vs =>
        cases vs with
        | nil => rfl
        | cons v vs =>
          simp only [wfJ, wfJ.wfL, Bool.and_eq_true] at hwf
          obtain ⟨hwv, hwvs⟩ := hwf
          have hlen2 : (renderJ v).length + (renderJ.rTail vs).length + 2 ≤ fuel := by
            simp only [renderJ, List.length_cons, List.length_append,
              List.length_singleton] at hlen
            omega
          rw [show renderJ (J.arr (v :: vs)) ++ rest =
              '[' :: (renderJ v ++ (renderJ.rTail vs ++ (']' :: rest))) from by
            simp [renderJ]]
          rw [skipWs_not isWs_lbrack]
          simp only [ne_lb_n, ne_lb_q, if_false, eq_self_iff_true, if_true]
          obtain ⟨c0, t0, hc0, hcw, hcb⟩ := renderJ_head v
          rw [hc0, List.cons_append, skipWs_not hcw]
          simp only [hcb, if_false]
          rw [← List.cons_append, ← hc0]
          have hpv := ihv [] v (renderJ.rTail vs ++ ']' :: rest) (by simp) hwv
            (by omega) (rTail_head_not_digit vs ']' (by decide) rest)
          rw [List.nil_append] at hpv
          simp only [hpv, iha vs rest hwvs (by omega)]
      | obj kvs =>
        cases kvs with
        | nil => rfl
        | cons kv kvs =>
          obtain ⟨k, v⟩ := kv
          simp only [wfJ, wfJ.wfM, Bool.and_eq_true] at hwf
          obtain ⟨⟨hk, hwv⟩, hkvs⟩ := hwf
          have hlen2 : (renderJ v).length + (renderJ.rMTail kvs).length + 2 ≤ fuel := by
            simp only [renderJ, List.length_cons, List.length_append,
              List.length_singleton] at hlen
            omega
          rw [show renderJ (J.obj ((k, v) :: kvs)) ++ rest =
              lcurl :: ('"' :: (k ++ ('"' :: ':' :: ' ' ::
                (renderJ v ++ (renderJ.rMTail kvs ++ (rcurl :: rest)))))) from by
            simp [renderJ]]
          rw [skipWs_not isWs_lcurl]
          simp only [ne_lc_n, ne_lc_q, ne_lc_lb, if_false, eq_self_iff_true, if_true]
          rw [skipWs_not isWs_quot]
          simp only [ne_q_rc, if_false, eq_self_iff_true, if_true]
          rw [parseStrBody_render k hk _]
          have hpv := ihv [' '] v (renderJ.rMTail kvs ++ rcurl :: rest) (by decide) hwv
            (by omega) (rMTail_head_not_digit kvs rcurl (by decide) rest)
          rw [List.singleton_append] at hpv
          simp only [skipWs_not isWs_colon, hpv, iho kvs rest hkvs (by omega)]
    · intro vs rest hL hlen
      show paStep (parsers fuel) (renderJ.rTail vs ++ ']' :: rest) = some (vs, rest)
      cases vs with
      | nil => rfl
      | cons v vs =>
        simp only [wfJ.wfL, Bool.and_eq_true] at hL
        obtain ⟨hwv, hwvs⟩ := hL
        have hlen2 : (renderJ v).length + (renderJ.rTail vs).length + 2 ≤ fuel := by
          simp only [renderJ.rTail, List.length_cons, List.length_append] at hlen
          omega
        rw [show renderJ.rTail (v :: vs) ++ ']' :: rest =
            ',' :: ' ' :: (renderJ v ++ (renderJ.rTail vs ++ (']' :: rest))) from by
          simp [renderJ.rTail]]
        rw [paStep.eq_def, skipWs_not isWs_comma]
        simp only [ne_comma_rb, if_false, eq_self_iff_true, if_true]
        have hpv := ihv [' '] v (renderJ.rTail vs ++ ']' :: rest) (by decide) hwv
          (by omega) (rTail_head_not_digit vs ']' (by decide) rest)
        rw [List.singleton_append] at hpv
        simp only [hpv, iha vs rest hwvs (by omega)]
    · intro kvs rest hM hlen
      show poStep (parsers fuel) (renderJ.rMTail kvs ++ rcurl :: rest) = some (kvs, rest)
      cases kvs with
      | nil => rfl
      | cons kv kvs =>
        obtain ⟨k, v⟩ := kv
        simp only [wfJ.wfM, Bool.and_eq_true] at hM
        obtain ⟨⟨hk, hwv⟩, hkvs⟩ := hM
        have hlen2 : (renderJ v).length + (renderJ.rMTail kvs).length + 2 ≤ fuel := by
          simp only [renderJ.rMTail, List.length_cons, List.length_append] at hlen
          omega
        rw [show renderJ.rMTail ((k, v) :: kvs) ++ rcurl :: rest =
            ',' :: ' ' :: ('"' :: (k ++ ('"' :: ':' :: ' ' ::
              (renderJ v ++ (renderJ.rMTail kvs ++ (rcurl :: rest)))))) from by
          simp [renderJ.rMTail]]
        rw [poStep.eq_def, skipWs_not isWs_comma]
        simp only [ne_comma_rc, if_false, eq_self_iff_true, if_true]
        rw [skipWs_ws isWs_space, skipWs_not isWs_quot]
        have hpv := ihv [' '] v (renderJ.rMTail kvs ++ rcurl :: rest) (by decide) hwv
          (by omega) (rMTail_head_not_digit kvs rcurl (by decide) rest)
        rw [List.singleton_append] at hpv
        simp only [parseStrBody_render k hk, skipWs_not isWs_colon, hpv,
          iho kvs rest hkvs (by omega)]

theorem load_save_roundtrip (v : J) (hwf : wfJ v = true) :
    load_ck (some (save_ck v)) = some v := by
  show parseJson (renderJ v) = some v
  have h := (parsers_render ((renderJ v).length + 1)).1 [] v [] (by simp) hwf
    (by omega) (by intro y hy; simp at hy)
  simp only [List.nil_append, List.append_nil] at h
  rw [parseJson, h]
  simp [skipWs]

set_option maxRecDepth 8000

/-! ### Concrete fixtures used by witnesses and counterexamples -/

/-- An empty bucket map (`{l: [] for l in LABELS}` extended by default). -/
def emptyBuckets : String → List Case := fun _ => []

/-- A zero count map (`defaultdict(int)`). -/
def zeroCounts : String → Nat := fun _ => 0

/-- A label-A case with a given id. -/
def cA (i : String) : Case :=
  { id := i, imageUrl := ("https://a/img.jpg"), diagnosis := ("labelA"),
    source := ("APIv2-lesions") }

/-- A label-B case with a given id. -/
def cB (i : String) : Case :=
  { id := i, imageUrl := ("https://b/img.jpg"), diagnosis := ("labelB"),
    source := ("APIv2-lesions") }

/-- Bucket A of the spec's scenario: five cases with ids a1..a5. -/
def bucketA5 : List Case := [cA ("a1"), cA ("a2"), cA ("a3"), cA ("a4"), cA ("a5")]

/-- Bucket B of the spec's scenario: five cases with ids b1..b5. -/
def bucketB5 : List Case := [cB ("b1"), cB ("b2"), cB ("b3"), cB ("b4"), cB ("b5")]

/-- A lesion record carrying no usable diagnosis text (it maps to no label). -/
def dummyLesion : Lesion :=
  { outcome_diagnosis := "", outcome_diagnosis_1 := "", index_image_id := none,
    images := [] }

/-- A search record with empty id, empty URL and no image-type metadata. -/
def badSearchRec : SearchRec := { isic_id := "", fileUrl := "", image_type := none }

/-! ### C5: the modality filter -/

/-- The acceptance predicate exactly as the spec words it, for comparison with
the source's `is_dermoscopic`: accept iff the acquisition image type is
absent/empty or contains the substring "dermoscopic" case-insensitively. -/
def accepts_dermoscopic_spec (image_type : Option String) : Bool :=
  let t := lowerL (image_type.getD ("")).toList
  t.isEmpty || containsSub t (("dermoscopic").toList)

/-- C5 (counterexample): an image type of "dermoscopy" is accepted by the
code's filter (it contains "dermo") but contains no substring "dermoscopic",
so the claimed if-and-only-if characterisation fails on it. -/
theorem C5_counterexample :
    is_dermoscopic (some ("dermoscopy")) = true ∧
    accepts_dermoscopic_spec (some ("dermoscopy")) = false := by
  constructor <;> decide

/-- C5 (amended): the modality filter accepts a record iff the lowercased
acquisition image type is absent/empty or contains the substring "dermo"
(not "dermoscopic"); in particular an image with acquisition image type
"clinical" is rejected: `lesion_to_case` drops it no matter its other
fields, and the search loop skips it. -/
theorem C5_amended_thm :
    (∀ it : Option String,
      is_dermoscopic it = true ↔
        (lowerL (it.getD ("")).toList = [] ∨
          containsSub (lowerL (it.getD ("")).toList) (("dermo").toList) = true)) ∧
    (∀ img : Img, img.image_type = some ("clinical") →
      ∀ label, lesion_to_case img label = none) ∧
    (∀ label buckets counts r, r.image_type = some ("clinical") →
      searchProcessPage label buckets counts [r] = (buckets, counts)) := by
  refine ⟨?_, ?_, ?_⟩
  · intro it
    simp [is_dermoscopic, List.isEmpty_iff]
  · intro img hit label
    rw [lesion_to_case]
    have hder : is_dermoscopic img.image_type = false := by
      rw [hit]
      decide
    by_cases h : img.fileUrl = "" ∨ img.isic_id = ""
    · rw [if_pos h]
    · rw [if_neg h, hder]
      simp
  · intro label buckets counts r hit
    rw [searchProcessPage]
    have hder : is_dermoscopic r.image_type = false := by
      rw [hit]
      decide
    rw [hder]
    simp [searchProcessPage]

/-- C5 (witness): the amended theorem applied to a concrete clinical image. -/
theorem C5_amended_witness :
    lesion_to_case
      { isic_id := ("ISIC_1"), fileUrl := ("https://x"), image_type := some ("clinical") }
      ("melanoma") = none :=
  C5_amended_thm.2.1 _ rfl ("melanoma")

/-! ### C2: the 5-vs-5 scenario of build_sets -/

/-- C2 (counterexample): on bucket A = a1..a5, bucket B = b1..b5 with
`setCount = 3`, `preferredSize = 5`, `fallbackSize = 3`, `build_sets` does
not return the empty list. -/
theorem C2_counterexample : build_sets bucketA5 bucketB5 3 5 3 ≠ [] := by decide

/-- C2 (amended): on that input the preferred attempt yields only 1 of the 3
required sets, so the builder falls back to size 3; the fallback also cannot
produce 3 full sets, and `build_sets` returns the complete sets the fallback
produced — the single 6-case set interleaving a1..a3 with b1..b3 — rather
than the empty list. -/
theorem C2_amended_thm :
    (attemptSets (sortById bucketA5) (sortById bucketB5) 3 5).length = 1 ∧
    (attemptSets (sortById bucketA5) (sortById bucketB5) 3 3).length = 1 ∧
    build_sets bucketA5 bucketB5 3 5 3 =
      [[cA ("a1"), cB ("b1"), cA ("a2"), cB ("b2"), cA ("a3"), cB ("b3")]] := by
  refine ⟨by decide, by decide, by decide⟩

/-! ### C7: fallback control flow of build_sets -/

/-- C7: whenever the preferred per-class size fails to produce `nsets` full
sets, `build_sets` returns exactly the fallback attempt's output — the
complete sets producible at the fallback size (possibly none); it never
fails, being a total function. -/
theorem C7_fallback (a b : List Case) (nsets preferred fallback : Nat)
    (h : (attemptSets (sortById a) (sortById b) nsets preferred).length ≠ nsets) :
    build_sets a b nsets preferred fallback =
      attemptSets (sortById a) (sortById b) nsets fallback := by
  rw [build_sets]
  simp only [if_neg h]

/-- C7 (witness): on the 5-vs-5 scenario the preferred size 5 fails and the
result is the fallback attempt's output. -/
theorem C7_fallback_witness :
    build_sets bucketA5 bucketB5 3 5 3 =
      attemptSets (sortById bucketA5) (sortById bucketB5) 3 3 :=
  C7_fallback bucketA5 bucketB5 3 5 3 (by decide)

/-! ### C3: checkpoint persistence frequency -/

/-- C3 (counterexample): the very first page of the lesions stream (200
records, `scanned` going 0 → 200) is processed without a checkpoint save,
since `200 % 1000 < 200` fails — so the lesions harvester does not persist
the checkpoint after every page. -/
theorem C3_counterexample :
    (lesionsPageStep 0 emptyBuckets zeroCounts (List.replicate 200 dummyLesion)
      (some ("https://next"))).savedCheckpoint = false := by decide

/-- C3 (amended): the search harvester does save the full checkpoint after
every page it processes, but the lesions harvester saves after a page only
when `(scanned + len(page)) % 1000 < len(page)`, i.e. roughly once per 1000
scanned lesion records. -/
theorem C3_amended_thm :
    (∀ label buckets counts results nextUrl,
      (searchPageStep label buckets counts results nextUrl).savedCheckpoint = true) ∧
    (∀ scanned buckets counts results nextUrl,
      (lesionsPageStep scanned buckets counts results nextUrl).savedCheckpoint = true ↔
        (scanned + results.length) % 1000 < results.length) := by
  constructor
  · intro label buckets counts results nextUrl
    rfl
  · intro scanned buckets counts results nextUrl
    simp [lesionsPageStep]

/-- C3 (witness): the amended characterisation applied to concrete pages —
a search page is always followed by a save, and a lesions page crossing the
1000-records boundary (scanned 800 → 1000) is followed by one. -/
theorem C3_amended_witness :
    (searchPageStep ("bowen") emptyBuckets zeroCounts [badSearchRec]
      none).savedCheckpoint = true ∧
    (lesionsPageStep 800 emptyBuckets zeroCounts (List.replicate 200 dummyLesion)
      none).savedCheckpoint = true :=
  ⟨C3_amended_thm.1 ("bowen") emptyBuckets zeroCounts [badSearchRec] none,
   (C3_amended_thm.2 800 emptyBuckets zeroCounts (List.replicate 200 dummyLesion)
      none).mpr (by decide)⟩

/-! ### C4: missing/empty record fields -/

/-- C4 (counterexample): in the search harvesting path a record with an empty
`isic_id` and an empty image URL is not skipped: it is appended to the
bucket as a case with empty `id` and empty `imageUrl`. -/
theorem C4_counterexample :
    (searchProcessPage ("bowen") emptyBuckets zeroCounts [badSearchRec]).1 ("bowen") =
      [{ id := "", imageUrl := "", diagnosis := ("bowen"), source := ("APIv2-search") }] := by
  decide

/-- C4 (amended): only the lesions path checks for missing fields:
`lesion_to_case` drops any record with an empty URL or empty id, so every
case it produces has non-empty `id` and `imageUrl`, and `process_lesion`
preserves that invariant for every bucket; the search path builds its case
dicts without such a check and can append a case with empty id or URL. -/
theorem C4_amended_thm :
    (∀ img label, (img.fileUrl = "" ∨ img.isic_id = "") →
      lesion_to_case img label = none) ∧
    (∀ c img label, lesion_to_case img label = some c →
      ¬ c.id = "" ∧ ¬ c.imageUrl = "") ∧
    (∀ bc lesion l,
      (∀ lab, ∀ c ∈ bc.1 lab, ¬ c.id = "" ∧ ¬ c.imageUrl = "") →
      ∀ c ∈ (process_lesion bc lesion).1 l, ¬ c.id = "" ∧ ¬ c.imageUrl = "") := by
  have hnone : ∀ img label, (img.fileUrl = "" ∨ img.isic_id = "") →
      lesion_to_case img label = none := by
    intro img label h
    rw [lesion_to_case, if_pos h]
  have hsome : ∀ c img label, lesion_to_case img label = some c →
      ¬ c.id = "" ∧ ¬ c.imageUrl = "" := by
    intro c img label h
    rw [lesion_to_case] at h
    by_cases hemp : img.fileUrl = "" ∨ img.isic_id = ""
    · rw [if_pos hemp] at h
      exact absurd h (by simp)
    · rw [if_neg hemp] at h
      push_neg at hemp
      by_cases hder : is_dermoscopic img.image_type
      · rw [if_pos hder] at h
        obtain rfl : _ = c := Option.some_inj.mp h
        exact ⟨hemp.2, hemp.1⟩
      · rw [if_neg hder] at h
        exact absurd h (by simp)
  refine ⟨hnone, hsome, ?_⟩
  intro bc lesion l hinv c hc
  cases hml : map_lesion_label lesion with
  | none =>
    simp only [process_lesion, hml] at hc
    exact hinv l c hc
  | some label =>
    simp only [process_lesion, hml] at hc
    by_cases hmem : label ∈ lesionStreamLabels
    · rw [if_pos hmem] at hc
      cases hpick : pickIndexImage lesion with
      | none =>
        simp only [hpick] at hc
        exact hinv l c hc
      | some im =>
        simp only [hpick] at hc
        cases hcase : lesion_to_case im label with
        | none =>
          simp only [add_case, hcase] at hc
          exact hinv l c hc
        | some c2 =>
          simp only [add_case, hcase] at hc
          by_cases h1 : TARGET_PER_LABEL ≤ bc.2 label
          · rw [if_pos h1] at hc
            exact hinv l c hc
          · rw [if_neg h1] at hc
            by_cases h2 : (bc.1 label).any (fun x => x.id == c2.id)
            · rw [if_pos h2] at hc
              exact hinv l c hc
            · rw [if_neg h2] at hc
              simp only [Function.update_apply] at hc
              by_cases h3 : l = label
              · rw [if_pos h3] at hc
                rcases List.mem_append.mp hc with h4 | h4
                · exact hinv label c h4
                · obtain rfl : c = c2 := by simpa using h4
                  exact hsome c im label hcase
              · rw [if_neg h3] at hc
                exact hinv l c hc
    · rw [if_neg hmem] at hc
      exact hinv l c hc

/-- C4 (witness): the amended theorem's lesions-path guarantee applied to a
concrete record with an empty id. -/
theorem C4_amended_witness :
    lesion_to_case
      { isic_id := (""), fileUrl := ("https://x"), image_type := none }
      ("nevus") = none :=
  C4_amended_thm.1 _ ("nevus") (Or.inr rfl)

/-! ### C1: bucket uniqueness (id dedup; lesion-level dedup in the stricter
variant) -/

/-- The pairwise relation of C1 for the stricter variant: distinct ids, and
distinct lesion identifiers whenever the earlier one is non-empty. -/
def LDistinct (x y : LCase) : Prop :=
  ¬ x.id = y.id ∧ (¬ x.lesionId = "" → ¬ x.lesionId = y.lesionId)

/-- C1: `add_case` preserves "no two cases of a bucket share an id" for every
bucket (hence, starting from empty buckets, it holds at every point during
and after harvesting), and the stricter variant's adding operation with
lesion-level dedup additionally preserves "no two cases share a non-empty
lesion identifier". -/
theorem C1_bucket_uniqueness :
    (∀ buckets counts label case? l,
      List.Pairwise (fun x y : Case => ¬ x.id = y.id) (buckets l) →
      List.Pairwise (fun x y : Case => ¬ x.id = y.id)
        ((add_case buckets counts label case?).1 l)) ∧
    (∀ bucket count c, List.Pairwise LDistinct bucket →
      List.Pairwise LDistinct (add_case_lesion_dedup bucket count c).1) := by
  constructor
  · intro buckets counts label case? l h
    cases case? with
    | none => exact h
    | some c =>
      simp only [add_case]
      by_cases h1 : TARGET_PER_LABEL ≤ counts label
      · rw [if_pos h1]
        exact h
      · rw [if_neg h1]
        by_cases h2 : (buckets label).any (fun x => x.id == c.id)
        · rw [if_pos h2]
          exact h
        · rw [if_neg h2]
          simp only [Function.update_apply]
          by_cases h3 : l = label
          · rw [if_pos h3]
            subst h3
            rw [List.pairwise_append]
            refine ⟨h, List.pairwise_singleton _ _, ?_⟩
            intro x hx y hy
            obtain rfl : y = c := by simpa using hy
            have := List.any_eq_false.mp (Bool.of_not_eq_true h2) x hx
            simpa using this
          · rw [if_neg h3]
            exact h
  · intro bucket count c h
    rw [add_case_lesion_dedup]
    by_cases h1 : TARGET_PER_LABEL ≤ count
    · rw [if_pos h1]
      exact h
    · rw [if_neg h1]
      by_cases h2 : bucket.any (fun x => x.id == c.id)
      · rw [if_pos h2]
        exact h
      · rw [if_neg h2]
        have hid : ∀ x ∈ bucket, ¬ x.id = c.id := by
          intro x hx
          have := List.any_eq_false.mp (Bool.of_not_eq_true h2) x hx
          simpa using this
        by_cases h3 : c.lesionId = ""
        · rw [if_pos h3]
          rw [List.pairwise_append]
          refine ⟨h, List.pairwise_singleton _ _, ?_⟩
          intro x hx y hy
          obtain rfl : y = c := by simpa using hy
          refine ⟨hid x hx, fun hne heq => ?_⟩
          rw [heq] at hne
          exact hne h3
        · rw [if_neg h3]
          by_cases h4 : bucket.any (fun x => x.lesionId == c.lesionId)
          · rw [if_pos h4]
            exact h
          · rw [if_neg h4]
            rw [List.pairwise_append]
            refine ⟨h, List.pairwise_singleton _ _, ?_⟩
            intro x hx y hy
            obtain rfl : y = c := by simpa using hy
            refine ⟨hid x hx, fun _ heq => ?_⟩
            have := List.any_eq_false.mp (Bool.of_not_eq_true h4) x hx
            simp only [beq_iff_eq] at this
            exact this heq

/-- C1 (witness): both preservation statements applied to a concrete empty
bucket and a concrete case. -/
theorem C1_bucket_uniqueness_witness :
    List.Pairwise (fun x y : Case => ¬ x.id = y.id)
      ((add_case emptyBuckets zeroCounts ("melanoma") (some (cA ("a1")))).1
        ("melanoma")) ∧
    List.Pairwise LDistinct
      (add_case_lesion_dedup [] 0 { id := ("ISIC_1"), lesionId := ("L1") }).1 :=
  ⟨C1_bucket_uniqueness.1 emptyBuckets zeroCounts ("melanoma") (some (cA ("a1")))
      ("melanoma") List.Pairwise.nil,
   C1_bucket_uniqueness.2 [] 0 { id := ("ISIC_1"), lesionId := ("L1") }
      List.Pairwise.nil⟩

/-! ### C8 and C10: the bucket cap and the count/length consistency -/

/-- A sequence of `add_case` calls (the only operation that ever appends to a
bucket during harvesting), folded over a starting state: used to express
invariants that hold at every point during harvesting. -/
def addMany (ops : List (String × Option Case))
    (bc : (String → List Case) × (String → Nat)) :
    (String → List Case) × (String → Nat) :=
  ops.foldl (fun bc op => add_case bc.1 bc.2 op.1 op.2) bc

/-- One step of the consistency-and-cap invariant: `add_case` preserves, for
every label, "the count equals the bucket length and is at most the target". -/
theorem add_case_inv (buckets : String → List Case) (counts : String → Nat)
    (label : String) (case? : Option Case)
    (h : ∀ l, counts l = (buckets l).length ∧ (buckets l).length ≤ TARGET_PER_LABEL) :
    ∀ l, (add_case buckets counts label case?).2 l =
        ((add_case buckets counts label case?).1 l).length ∧
      ((add_case buckets counts label case?).1 l).length ≤ TARGET_PER_LABEL := by
  intro l
  cases case? with
  | none => exact h l
  | some c =>
    simp only [add_case]
    by_cases h1 : TARGET_PER_LABEL ≤ counts label
    · rw [if_pos h1]
      exact h l
    · rw [if_neg h1]
      by_cases h2 : (buckets label).any (fun x => x.id == c.id)
      · rw [if_pos h2]
        exact h l
      · rw [if_neg h2]
        simp only [Function.update_apply]
        by_cases h3 : l = label
        · simp only [if_pos h3]
          subst h3
          have hl := h l
          simp only [List.length_append, List.length_singleton]
          omega
        · simp only [if_neg h3]
          exact h l

/-- C10: `add_case` preserves `counts[label] == len(buckets[label])` for every
label — both are bumped together or neither is — so in a run starting from a
consistent checkpoint the target check on the counter genuinely tracks the
bucket length. -/
theorem C10_count_length (buckets : String → List Case) (counts : String → Nat)
    (label : String) (case? : Option Case)
    (h : ∀ l, counts l = (buckets l).length) :
    ∀ l, (add_case buckets counts label case?).2 l =
      ((add_case buckets counts label case?).1 l).length := by
  intro l
  cases case? with
  | none => exact h l
  | some c =>
    simp only [add_case]
    by_cases h1 : TARGET_PER_LABEL ≤ counts label
    · rw [if_pos h1]
      exact h l
    · rw [if_neg h1]
      by_cases h2 : (buckets label).any (fun x => x.id == c.id)
      · rw [if_pos h2]
        exact h l
      · rw [if_neg h2]
        simp only [Function.update_apply]
        by_cases h3 : l = label
        · simp only [if_pos h3]
          subst h3
          have hl := h l
          simp only [List.length_append, List.length_singleton]
          omega
        · simp only [if_neg h3]
          exact h l

/-- C10 (witness): consistency preserved on a concrete add from the empty
state. -/
theorem C10_count_length_witness :
    (add_case emptyBuckets zeroCounts ("bcc") (some (cA ("a1")))).2 ("bcc") =
      ((add_case emptyBuckets zeroCounts ("bcc") (some (cA ("a1")))).1 ("bcc")).length :=
  C10_count_length emptyBuckets zeroCounts ("bcc") (some (cA ("a1")))
    (fun _ => rfl) ("bcc")

/-- C8: starting from any state whose counts match its bucket lengths and
whose buckets are within the target (in particular the empty initial state),
after any sequence of `add_case` calls every bucket still has at most
`TARGET_PER_LABEL = 15` cases: no call ever grows a bucket past the target. -/
theorem C8_bucket_cap (ops : List (String × Option Case))
    (buckets : String → List Case) (counts : String → Nat)
    (h : ∀ l, counts l = (buckets l).length ∧ (buckets l).length ≤ TARGET_PER_LABEL) :
    ∀ l, ((addMany ops (buckets, counts)).1 l).length ≤ TARGET_PER_LABEL := by
  induction ops generalizing buckets counts with
  | nil =>
    intro l
    exact (h l).2
  | cons op ops ih =>
    intro l
    rw [addMany, List.foldl_cons]
    exact ih (add_case buckets counts op.1 op.2).1
      (add_case buckets counts op.1 op.2).2
      (add_case_inv buckets counts op.1 op.2 h) l

/-- C8 (witness): the cap after a concrete sequence of adds from the empty
state. -/
theorem C8_bucket_cap_witness :
    ((addMany [(("nevus"), some (cA ("a1"))), (("nevus"), some (cA ("a1")))]
      (emptyBuckets, zeroCounts)).1 ("nevus")).length ≤ TARGET_PER_LABEL :=
  C8_bucket_cap _ emptyBuckets zeroCounts
    (fun _ => ⟨rfl, by simp [emptyBuckets, TARGET_PER_LABEL]⟩) ("nevus")

/-! ### C9: checkpoint round-trip -/

/-- A concrete checkpoint state of the shape the script saves (version,
cursors, counts, buckets). -/
def ckExample : J :=
  J.obj
    [(("version").toList, J.num 3),
     (("target_per_label").toList, J.num 15),
     (("lesions_url").toList, J.null),
     (("scanned_lesions").toList, J.num 1200),
     (("search_url_bowen").toList, J.str ("https://api.isic-archive.com/a?c=x").toList),
     (("counts").toList, J.obj [(("melanoma").toList, J.num 1)]),
     (("buckets").toList, J.obj
       [(("melanoma").toList, J.arr
         [J.obj [(("id").toList, J.str ("ISIC_0000001").toList),
                 (("imageUrl").toList, J.str ("https://content.isic-archive.com/1.jpg").toList),
                 (("diagnosis").toList, J.str ("melanoma").toList),
                 (("source").toList, J.str ("APIv2-lesions").toList)]])])]

/-- C9: for every JSON-representable checkpoint state (null / number /
string / array / object values whose strings need no escaping — the states
the harvester actually saves), writing the state with `save_ck` and reading
it back with `load_ck` returns exactly the original state. -/
theorem C9_roundtrip (v : J) (hwf : wfJ v = true) :
    load_ck (some (save_ck v)) = some v :=
  load_save_roundtrip v hwf

/-- C9 (witness): the round-trip on the concrete checkpoint state. -/
theorem C9_roundtrip_witness :
    wfJ ckExample = true ∧ load_ck (some (save_ck ckExample)) = some ckExample :=
  ⟨by decide, C9_roundtrip ckExample (by decide)⟩

/-! ### C6: shape and alternation of the built quiz sets -/

theorem interleave_length (aa bb : List Case) (h : aa.length = bb.length) :
    (interleave aa bb).length = 2 * aa.length := by
  induction aa generalizing bb with
  | nil =>
    cases bb with
    | nil => rfl
    | cons y ys => simp at h
  | cons x xs ih =>
    cases bb with
    | nil => simp at h
    | cons y ys =>
      have h2 : xs.length = ys.length := by simpa using h
      rw [interleave]
      simp only [List.length_cons, ih ys h2]
      omega

theorem interleave_getD (aa bb : List Case) (h : aa.length = bb.length) (d : Case) :
    ∀ i, i < (interleave aa bb).length →
      (i % 2 = 0 → (interleave aa bb).getD i d ∈ aa) ∧
      (i % 2 = 1 → (interleave aa bb).getD i d ∈ bb) := by
  induction aa generalizing bb with
  | nil =>
    cases bb with
    | nil =>
      intro i hi
      rw [show interleave ([] : List Case) [] = [] from rfl] at hi
      simp at hi
    | cons y ys => simp at h
  | cons x xs ih =>
    cases bb with
    | nil => simp at h
    | cons y ys =>
      have h2 : xs.length = ys.length := by simpa using h
      intro i hi
      match i with
      | 0 =>
        refine ⟨fun _ => ?_, fun h1 => by simp at h1⟩
        rw [interleave]
        simp
      | 1 =>
        refine ⟨fun h0 => by simp at h0, fun _ => ?_⟩
        rw [interleave]
        simp
      | (i + 2) =>
        have hlt : i < (interleave xs ys).length := by
          rw [interleave] at hi
          simp only [List.length_cons] at hi
          omega
        have hih := ih ys h2 i hlt
        have hmod : (i + 2) % 2 = i % 2 := Nat.add_mod_right i 2
        rw [interleave]
        simp only [List.getD_cons_succ, hmod]
        exact ⟨fun h0 => List.mem_cons_of_mem x (hih.1 h0),
               fun h1 => List.mem_cons_of_mem y (hih.2 h1)⟩

theorem chunkSet_sound (aaAll bbAll : List Case) (per i : Nat) (s : List Case)
    (h : chunkSet aaAll bbAll per i = some s) :
    ∃ aa bb, aa.length = per ∧ bb.length = per ∧ aa ⊆ aaAll ∧ bb ⊆ bbAll ∧
      s = interleave aa bb := by
  rw [chunkSet] at h
  by_cases hc : ((aaAll.drop (i * per)).take per).length = per ∧
      ((bbAll.drop (i * per)).take per).length = per
  · rw [if_pos hc] at h
    refine ⟨_, _, hc.1, hc.2, ?_, ?_, (Option.some_inj.mp h).symm⟩
    · exact fun x hx => List.drop_subset _ _ (List.take_subset _ _ hx)
    · exact fun x hx => List.drop_subset _ _ (List.take_subset _ _ hx)
  · rw [if_neg hc] at h
    cases h

theorem attemptSets_sound (asL bsL : List Case) (n per : Nat) (s : List Case)
    (hs : s ∈ attemptSets asL bsL n per) :
    s.length = 2 * per ∧ ∀ i (d : Case), i < s.length →
      (i % 2 = 0 → s.getD i d ∈ asL) ∧ (i % 2 = 1 → s.getD i d ∈ bsL) := by
  simp only [attemptSets] at hs
  obtain ⟨i, _, hchunk⟩ := List.mem_filterMap.mp hs
  obtain ⟨aa, bb, ha, hb, haa, hbb, rfl⟩ :=
    chunkSet_sound _ _ per i s hchunk
  have hlen : (interleave aa bb).length = 2 * per := by
    rw [interleave_length aa bb (by omega), ha]
  refine ⟨hlen, fun j d hj => ?_⟩
  have hsub_a : aa ⊆ asL := fun x hx => List.take_subset _ _ (haa hx)
  have hsub_b : bb ⊆ bsL := fun x hx => List.take_subset _ _ (hbb hx)
  have := interleave_getD aa bb (by omega) d j hj
  exact ⟨fun h0 => hsub_a (this.1 h0), fun h1 => hsub_b (this.2 h1)⟩

/-- C6: every quiz set returned by `build_sets` was built at the preferred or
at the fallback per-class size; it has length exactly twice that size, its
even positions hold cases of bucket A and its odd positions hold cases of
bucket B (the pairwise interleaving A0,B0,A1,B1,...). -/
theorem C6_set_shape (a b : List Case) (n p f : Nat) (s : List Case)
    (hs : s ∈ build_sets a b n p f) :
    ∃ per, (per = p ∨ per = f) ∧ s.length = 2 * per ∧
      ∀ i (d : Case), i < s.length →
        (i % 2 = 0 → s.getD i d ∈ a) ∧ (i % 2 = 1 → s.getD i d ∈ b) := by
  have hma : ∀ x, x ∈ sortById a → x ∈ a := fun x hx =>
    ((List.perm_insertionSort caseLe a).mem_iff).mp hx
  have hmb : ∀ x, x ∈ sortById b → x ∈ b := fun x hx =>
    ((List.perm_insertionSort caseLe b).mem_iff).mp hx
  simp only [build_sets] at hs
  by_cases hcond : (attemptSets (sortById a) (sortById b) n p).length = n
  · rw [if_pos hcond] at hs
    obtain ⟨hlen, hmem⟩ := attemptSets_sound _ _ n p s hs
    exact ⟨p, Or.inl rfl, hlen, fun i d hi =>
      ⟨fun h0 => hma _ ((hmem i d hi).1 h0), fun h1 => hmb _ ((hmem i d hi).2 h1)⟩⟩
  · rw [if_neg hcond] at hs
    obtain ⟨hlen, hmem⟩ := attemptSets_sound _ _ n f s hs
    exact ⟨f, Or.inr rfl, hlen, fun i d hi =>
      ⟨fun h0 => hma _ ((hmem i d hi).1 h0), fun h1 => hmb _ ((hmem i d hi).2 h1)⟩⟩

/-- C6 (witness): the shape statement instantiated on the concrete 5-vs-5
scenario, whose single returned set is the 6-case fallback interleaving. -/
theorem C6_set_shape_witness :
    ∃ per, (per = 5 ∨ per = 3) ∧
      ([cA ("a1"), cB ("b1"), cA ("a2"), cB ("b2"), cA ("a3"), cB ("b3")] :
        List Case).length = 2 * per ∧
      ∀ i (d : Case),
        i < ([cA ("a1"), cB ("b1"), cA ("a2"), cB ("b2"), cA ("a3"), cB ("b3")] :
          List Case).length →
        (i % 2 = 0 →
          ([cA ("a1"), cB ("b1"), cA ("a2"), cB ("b2"), cA ("a3"), cB ("b3")] :
            List Case).getD i d ∈ bucketA5) ∧
        (i % 2 = 1 →
          ([cA ("a1"), cB ("b1"), cA ("a2"), cB ("b2"), cA ("a3"), cB ("b3")] :
            List Case).getD i d ∈ bucketB5) :=
  C6_set_shape bucketA5 bucketB5 3 5 3 _ (by decide)
